import Mathlib

/-!
Verification development for the Coder App repository: a shallow embedding of
the project-context synchronization and file-change reconciliation layer
(src/main.js, src/App.tsx, src/services) together with theorems that settle
the stated properties of that layer.

Conventions used throughout:
* JavaScript strings are Lean `String`; paths use forward slashes.
* Asynchronous filesystem and IPC calls are modelled as pure functions; where
  the completion order of concurrent calls is observable, that order is an
  explicit parameter (a schedule).
* Fallible operations return `Except String` or `Option`.
-/

/-! ## Project Store ignore set and the watcher ignore regex (src/main.js) -/

/-- Directory names the Project Store skips when listing a project tree
(src/main.js line 183, `ignoredDirs`). -/
def ignoredDirs : List String :=
  ["node_modules", ".git", ".vscode", "__pycache__", "dist", "build", ".coder"]

/-- Boolean substring test on character lists: `hasSub pat s` is true when
`pat` occurs contiguously inside `s`. -/
def hasSub (pat : List Char) : List Char → Bool
  | [] => pat.isEmpty
  | c :: rest => pat.isPrefixOf (c :: rest) || hasSub pat rest

/-- Scan for a dot that starts a path segment and is followed by at least one
further character.  The Bool argument records whether the current scan
position is at the start of the string or directly after a path separator.
This models the alternative matching a dot segment in the chokidar ignore
regex of `setupWatcher` (src/main.js line 80). -/
def dotSegScan : Bool → List Char → Bool
  | _, [] => false
  | atSeg, c :: rest =>
      (atSeg && c == '.' && !rest.isEmpty) || dotSegScan (c == '/' || c == '\\') rest

/-- List-level model of the chokidar `ignored` regex test
(src/main.js line 80): the regex is an alternation, so a path is ignored when
some path segment starts with a dot followed by another character, or when the
path contains one of the substrings node_modules, dist, build. -/
def chokidarIgnoredL (l : List Char) : Bool :=
  dotSegScan true l
    || hasSub "node_modules".toList l
    || hasSub "dist".toList l
    || hasSub "build".toList l

/-- The watcher ignore test on a path string (src/main.js, `setupWatcher`). -/
def chokidarIgnored (s : String) : Bool :=
  chokidarIgnoredL s.toList

/-- Modelled from the spec: the ignore rule the spec ascribes to the watcher,
namely membership in the Project Store ignore set or being a dotfile. -/
def specWatcherIgnores (name : String) : Bool :=
  ignoredDirs.contains name ||
    (match name.toList with
     | '.' :: _ => true
     | _ => false)

/-- Claim C5 as stated: for every path, the watcher suppresses events under a
name exactly when that name is in the Project Store ignore set or starts with
a dot. -/
def claimC5 : Prop :=
  ∀ pre name : String, chokidarIgnored (pre ++ "/" ++ name) = specWatcherIgnores name

/-! ## Project Store tree listing (src/main.js, readProjectTree) -/

/-- A directory entry as the main process sees it through fs.readdir with
file types: a regular file, or a subdirectory with its own entries. -/
inductive DirEnt where
  | fileEnt (name : String)
  | dirEnt (name : String) (entries : List DirEnt)

/-- A tree node returned to the renderer (src/types.ts, TreeNode): tagged as
file or folder, carrying the entry name, the path relative to the project
root with forward slashes, and for folders the child nodes. -/
inductive TreeNode where
  | file (name : String) (path : String)
  | folder (name : String) (path : String) (children : List TreeNode)

/-- Name of a tree node. -/
def TreeNode.name : TreeNode → String
  | .file n _ => n
  | .folder n _ _ => n

/-- Relative path of a tree node. -/
def TreeNode.path : TreeNode → String
  | .file _ p => p
  | .folder _ p _ => p

/-- Path of a child entry relative to the project root, as computed by
path.relative in src/main.js: entries directly under the root get their bare
name. -/
def joinPath (pre name : String) : String :=
  if pre = "" then name else pre ++ "/" ++ name

/-- Model of readProjectTree (src/main.js lines 184-209): walks the entries of
a directory, skipping every entry whose NAME is in `ignoredDirs` before its
kind is examined, and builds the renderer tree.  The String argument is the
relative path of the directory being walked, empty at the root. -/
def readProjectTree : List DirEnt → String → List TreeNode
  | [], _ => []
  | .fileEnt name :: rest, pre =>
      if ignoredDirs.contains name then readProjectTree rest pre
      else .file name (joinPath pre name) :: readProjectTree rest pre
  | .dirEnt name es :: rest, pre =>
      if ignoredDirs.contains name then readProjectTree rest pre
      else
        .folder name (joinPath pre name) (readProjectTree es (joinPath pre name))
          :: readProjectTree rest pre

/-- All names occurring anywhere in a list of tree nodes. -/
def treeNames : List TreeNode → List String
  | [] => []
  | .file n _ :: rest => n :: treeNames rest
  | .folder n _ cs :: rest => n :: (treeNames cs ++ treeNames rest)


/-! ## Chat content, disk state, and the IPC write handlers
(src/main.js, src/App.tsx) -/

/-- One part of a chat message (the google genai content part): either plain
text or inline image data. -/
inductive ChatPart where
  | text (s : String)
  | inlineData (mimeType data : String)

/-- A chat turn: a role (user or model) and its parts. -/
structure Content where
  role : String
  parts : List ChatPart

/-- Files on disk under the project root: an association of relative paths to
text contents, plus the persisted chat transcript.  The transcript file
.coder/chat.json is kept as a separate structured field because its JSON
serialization round-trips; the handlers below are modelled directly over the
structured value. -/
structure Disk where
  files : List (String × String)
  chat : Option (List Content)

/-- Overwrite or create the file at key `k` with content `v`. -/
def setFile (fs : List (String × String)) (k v : String) : List (String × String) :=
  (k, v) :: fs.filter (fun e => e.1 != k)

/-- Read the file at key `k`. -/
def readFileFs (fs : List (String × String)) (k : String) : Option String :=
  (fs.find? (fun e => e.1 == k)).map (fun e => e.2)

/-- Model of the write-file IPC handler (src/main.js lines 218-235) at the
level of its visible result: it writes the file, creating parent directories,
and RETHROWS any filesystem error to the renderer.  The `err` parameter
injects the outcome of the underlying filesystem operations. -/
def writeFileHandler (d : Disk) (relativePath content : String)
    (err : Option String) : Disk × Except String Unit :=
  match err with
  | some e => (d, Except.error e)
  | none => ({ d with files := setFile d.files relativePath content }, Except.ok ())

/-- Model of the write-chat-history IPC handler (src/main.js lines 254-263):
any filesystem error is caught inside the handler and only logged, so the
handler always resolves successfully, whatever the disk did. -/
def writeChatHistoryHandler (d : Disk) (history : List Content)
    (err : Option String) : Disk × Except String Unit :=
  match err with
  | some _ => (d, Except.ok ())
  | none => ({ d with chat := some history }, Except.ok ())

/-- Model of the read-chat-history IPC handler (src/main.js lines 244-252):
a missing or unparsable transcript file is an empty transcript. -/
def readChatHistoryFs (d : Disk) : List Content :=
  d.chat.getD []

/-! ## The Reconciliation Driver (src/App.tsx, handleSendMessage) -/

/-- The AI provider selected in settings; handleSendMessage distinguishes the
ollama branch from the gemini branch. -/
inductive AiProvider where
  | gemini
  | ollama

/-- One file of a structured AI response (src/types.ts, CodeFile): a full
project-relative path and the file content. -/
structure CodeFile where
  fileName : String
  code : String

/-- The normalized AI exchange result: files to write plus README text. -/
structure AIResponse where
  files : List CodeFile
  readmeContent : String

/-- Splitting a path on forward slashes (JavaScript p.split on a slash),
written as a plain character-list recursion. -/
def splitSlashAux : List Char → List Char → List String
  | [], acc => [String.mk acc.reverse]
  | c :: rest, acc =>
      if c = '/' then String.mk acc.reverse :: splitSlashAux rest []
      else splitSlashAux rest (c :: acc)

/-- Splitting a path string on forward slashes. -/
def splitSlash (p : String) : List String := splitSlashAux p.toList []

/-- Joining path segments with forward slashes. -/
def joinSlash : List String → String
  | [] => ""
  | [s] => s
  | s :: rest => s ++ "/" ++ joinSlash rest

/-- Ancestor directories of a relative path, as computed by getParentDirs
inside handleSendMessage (src/App.tsx lines 625-634): the proper prefixes of
the slash-separated path, joined back with slashes. -/
def getParentDirs (p : String) : List String :=
  let parts := splitSlash p
  (List.range (parts.length - 1)).map (fun i => joinSlash (parts.take (i + 1)))

/-- Root-level README detection used by refreshProject (src/App.tsx lines
406-429): the first root-level file whose lowercased name is readme.md. -/
def findRootReadme (d : Disk) : Option (String × String) :=
  d.files.find? (fun e => !(e.1.toList.contains '/') && e.1.toLower == "readme.md")

/-- The readme content refreshProject leaves in the session state. -/
def refreshReadmeContent (d : Disk) : String :=
  match findRootReadme d with
  | some e => e.2
  | none => ""

/-- Rendering of the structured AI response recorded as the ollama model turn
(JSON.stringify in src/App.tsx line 610).  The exact JSON text never matters
to the verified properties; this is a faithful injective rendering. -/
def stringifyResponse (r : AIResponse) : String :=
  "\x7b files: [" ++
      String.intercalate ", "
        (r.files.map (fun f => "\x7b " ++ f.fileName ++ ", " ++ f.code ++ " \x7d")) ++
    "], readme: " ++ r.readmeContent ++ " \x7d"

/-- The renderer session state touched by handleSendMessage. -/
structure AppState where
  disk : Disk
  chatHistory : List Content
  activeFile : Option String
  activeFileContent : String
  recentlyUpdatedPaths : Finset String
  readmeContent : String
  error : Option String
  notification : Option String
  isLoading : Bool

/-- A write performed against the main process during one send. -/
inductive WriteOp where
  | fileWrite (path content : String)
  | chatWrite (history : List Content)

/-- Result of one handleSendMessage run: the new session state and the list
of writes that reached the main process, in order. -/
structure SendOutcome where
  state : AppState
  writes : List WriteOp

/-- Model of handleSendMessage (src/App.tsx lines 557-651), one full send
cycle.  The built project context string and the raw model text recorded by
the gemini SDK session are passed as parameters (their construction is
modelled separately); `exch` is the outcome of the AI exchange call.  In the
gemini branch the SDK chat session is seeded with the transcript read from
disk, so after a successful exchange getChatHistory returns that transcript
followed by the sent user turn and the model turn. -/
def handleSendMessage (st : AppState) (prompt : String)
    (imageBase64 : Option String) (provider : AiProvider)
    (projectContext : String) (geminiRaw : String)
    (exch : Except String AIResponse) : SendOutcome :=
  let imgParts : List ChatPart :=
    match imageBase64 with
    | some img => [ChatPart.inlineData "image/png" img]
    | none => []
  let userContent : Content := ⟨"user", [ChatPart.text prompt] ++ imgParts⟩
  let optimistic : List Content := st.chatHistory ++ [userContent]
  let currentHistory : List Content := st.chatHistory
  match exch with
  | Except.error e =>
      { state :=
          { st with
            recentlyUpdatedPaths := ∅
            error := some e
            chatHistory := optimistic.dropLast
            isLoading := false }
        writes := [] }
  | Except.ok response =>
      let disk1 : Disk :=
        response.files.foldl
          (fun d f => { d with files := setFile d.files f.fileName f.code }) st.disk
      let fileWrites : List WriteOp :=
        response.files.map (fun f => WriteOp.fileWrite f.fileName f.code)
      let updatedPaths : List String := response.files.map (fun f => f.fileName)
      let active1 : Option String :=
        match response.files.getLast? with
        | some f => some f.fileName
        | none => st.activeFile
      let historyOnDisk : List Content := readChatHistoryFs st.disk
      let apiUserContent : Content :=
        ⟨"user", [ChatPart.text (projectContext ++ "USER REQUEST: " ++ prompt)] ++ imgParts⟩
      let newHistory : List Content :=
        match provider with
        | AiProvider.ollama =>
            currentHistory ++
              [userContent, ⟨"model", [ChatPart.text (stringifyResponse response)]⟩]
        | AiProvider.gemini =>
            historyOnDisk ++ [apiUserContent, ⟨"model", [ChatPart.text geminiRaw]⟩]
      let hist2 : List Content :=
        if newHistory.length > 0 then newHistory else optimistic
      let disk2 : Disk :=
        if newHistory.length > 0 then { disk1 with chat := some newHistory } else disk1
      let chatWrites : List WriteOp :=
        if newHistory.length > 0 then [WriteOp.chatWrite newHistory] else []
      let disk3 : Disk :=
        if response.readmeContent != "" then
          { disk2 with files := setFile disk2.files "README.md" response.readmeContent }
        else disk2
      let readmeWrites : List WriteOp :=
        if response.readmeContent != "" then
          [WriteOp.fileWrite "README.md" response.readmeContent]
        else []
      let allUpdatedPaths : List String :=
        updatedPaths ++ updatedPaths.flatMap getParentDirs
      let recent : Finset String :=
        allUpdatedPaths.foldl (fun s p => insert p s) (∅ : Finset String)
      { state :=
          { disk := disk3
            chatHistory := hist2
            activeFile := active1
            activeFileContent :=
              match active1 with
              | some p => (readFileFs disk3.files p).getD ""
              | none => ""
            recentlyUpdatedPaths := recent
            readmeContent := refreshReadmeContent disk3
            error := none
            notification := some "Project updated successfully!"
            isLoading := false }
        writes := fileWrites ++ chatWrites ++ readmeWrites }

/-- The concrete AI response of the sequential multi-file apply scenario. -/
def c2Response : AIResponse :=
  ⟨[⟨"src/a.ts", "A"⟩, ⟨"src/b.ts", "B"⟩], "R"⟩

/-- A fresh session state used as concrete input in witnesses. -/
def c2Start : AppState :=
  ⟨⟨[], none⟩, [], none, "", ∅, "", none, none, false⟩

/-! ## The rename-node handler (src/main.js line 238) -/

/-- Filesystem state for the rename model: files as an association of
segment-list paths to contents, plus the list of existing directories. -/
structure FsT where
  files : List (List String × String)
  dirs : List (List String)

/-- Is there a regular file at `p`. -/
def FsT.isFile (fs : FsT) (p : List String) : Bool :=
  (fs.files.lookup p).isSome

/-- Is there a directory at `p`. -/
def FsT.isDir (fs : FsT) (p : List String) : Bool :=
  fs.dirs.contains p

/-- Is there any node at `p`. -/
def FsT.existsNode (fs : FsT) (p : List String) : Bool :=
  fs.isFile p || fs.isDir p

/-- Does the directory `p` contain any file or directory strictly below it. -/
def FsT.dirNonempty (fs : FsT) (p : List String) : Bool :=
  fs.files.any (fun e => p.isPrefixOf e.1 && decide (p.length < e.1.length))
    || fs.dirs.any (fun d => p.isPrefixOf d && decide (p.length < d.length))

/-- Rewrite a path that lies under `old` to lie under `new` instead. -/
def rewriteUnder (old new p : List String) : List String :=
  if old.isPrefixOf p then new ++ p.drop old.length else p

/-- Move the directory at `old` to `new`: every path under `old` is
rewritten, and an empty directory previously at `new` is replaced. -/
def moveDir (fs : FsT) (old new : List String) : FsT :=
  { files := fs.files.map (fun e => (rewriteUnder old new e.1, e.2))
    dirs := (fs.dirs.filter (fun d => d != new)).map (rewriteUnder old new) }

/-- Did an Except-valued operation succeed. -/
def exceptOk (e : Except String FsT) : Bool :=
  match e with
  | Except.ok _ => true
  | Except.error _ => false

/-- Model of the rename-node IPC handler (src/main.js line 238).  The handler
is a direct call of Node fs.rename, whose documented semantics are those of
rename(2): a missing source fails with ENOENT; renaming a file onto an
existing file silently replaces it; renaming a file onto a directory fails
with EISDIR; renaming a directory onto a file fails with ENOTDIR; renaming a
directory onto a directory succeeds only when the destination is empty
(ENOTEMPTY otherwise); moving a directory into its own subtree fails with
EINVAL. -/
def renameNode (fs : FsT) (old new : List String) : Except String FsT :=
  match fs.files.lookup old with
  | some content =>
      if fs.isDir new then Except.error "EISDIR"
      else
        Except.ok { fs with
          files := (new, content)
            :: fs.files.filter (fun e => e.1 != old && e.1 != new) }
  | none =>
      if fs.isDir old then
        if old.isPrefixOf new && old != new then Except.error "EINVAL"
        else if fs.isFile new then Except.error "ENOTDIR"
        else if fs.isDir new then
          if fs.dirNonempty new then Except.error "ENOTEMPTY"
          else Except.ok (moveDir fs old new)
        else Except.ok (moveDir fs old new)
      else Except.error "ENOENT"

/-- Claim C7 as stated: rename fails exactly when the destination already
exists or the source does not exist, and succeeds otherwise. -/
def claimC7 : Prop :=
  ∀ (fs : FsT) (old new : List String),
    exceptOk (renameNode fs old new)
      = (fs.existsNode old && !(fs.existsNode new))

/-! ## Render-time tree sorting (src/App.tsx lines 346-351, sortTree) -/

/-- Primary collation weight of a character: ASCII uppercase letters fold to
their lowercase code points. -/
def primaryKey (c : Char) : Nat :=
  if 'A' ≤ c && c ≤ 'Z' then c.toNat + 32 else c.toNat

/-- Tertiary (case) weight of a character: lowercase sorts before uppercase
under the default collation. -/
def caseKey (c : Char) : Nat :=
  if 'A' ≤ c && c ≤ 'Z' then 1 else 0

/-- Lexicographic comparison of weight lists. -/
def lexOrdN : List Nat → List Nat → Ordering
  | [], [] => Ordering.eq
  | [], _ :: _ => Ordering.lt
  | _ :: _, [] => Ordering.gt
  | x :: xs, y :: ys =>
      if x < y then Ordering.lt
      else if y < x then Ordering.gt
      else lexOrdN xs ys

/-- Model of JavaScript String.prototype.localeCompare under the default ICU
collation of the runtime, restricted to ASCII strings: a full primary pass
with letter case folded, then for equal-primary strings a case-pattern pass
with lowercase first.  The JS number result is abstracted to an Ordering,
which is all the sort observes. -/
def localeCompare (a b : String) : Ordering :=
  match lexOrdN (a.toList.map primaryKey) (b.toList.map primaryKey) with
  | Ordering.eq => lexOrdN (a.toList.map caseKey) (b.toList.map caseKey)
  | o => o

/-- The sortTree comparator (src/App.tsx lines 346-351): folders before
files, otherwise by name via localeCompare. -/
def sortTree (a b : TreeNode) : Ordering :=
  match a, b with
  | TreeNode.folder _ _ _, TreeNode.file _ _ => Ordering.lt
  | TreeNode.file _ _, TreeNode.folder _ _ _ => Ordering.gt
  | _, _ => localeCompare a.name b.name

/-- The non-strict order induced by the comparator. -/
def sortTreeLe (a b : TreeNode) : Prop := sortTree a b ≠ Ordering.gt

instance : DecidableRel sortTreeLe := fun a b => by
  unfold sortTreeLe; infer_instance

/-- Render-time sorting of sibling nodes: a stable comparison sort by the
sortTree comparator, as performed by Array.prototype.sort. -/
def sortNodes (l : List TreeNode) : List TreeNode :=
  List.insertionSort sortTreeLe l

/-- Rank used to state the folders-before-files part of the order. -/
def kindRank : TreeNode → Nat
  | TreeNode.folder _ _ _ => 0
  | TreeNode.file _ _ => 1

/-- Modelled from the spec: case-sensitive ordinal comparison, plain
code-point lexicographic order. -/
def ordCompare (a b : String) : Ordering :=
  lexOrdN (a.toList.map Char.toNat) (b.toList.map Char.toNat)

/-- Claim C8 as stated: within the same kind the render-time comparator is
the case-sensitive ordinal comparison of names. -/
def claimC8 : Prop :=
  ∀ a b : TreeNode, kindRank a = kindRank b →
    sortTree a b = ordCompare a.name b.name

/-! ## Context Builder (src/App.tsx lines 315-379) -/

/-- Splitting on dots (JavaScript name.split on a dot). -/
def splitDotAux : List Char → List Char → List String
  | [], acc => [String.mk acc.reverse]
  | c :: rest, acc =>
      if c = '.' then String.mk acc.reverse :: splitDotAux rest []
      else splitDotAux rest (c :: acc)

/-- The fence language tag: last dot-separated component of the file name
(name.split, then pop, then empty fallback). -/
def langTag (name : String) : String :=
  (splitDotAux name.toList []).getLast?.getD ""

/-- One per-file context block as pushed by getProjectContextString. -/
def fileBlock (name path content : String) : String :=
  "File: `" ++ path ++ "`\n```" ++ langTag name ++ "\n" ++ content ++ "\n```"

/-- All file nodes of a tree in traversal order, as name and path pairs. -/
def filesOf : List TreeNode → List (String × String)
  | [] => []
  | TreeNode.file n p :: rest => (n, p) :: filesOf rest
  | TreeNode.folder _ _ cs :: rest => filesOf cs ++ filesOf rest

/-- The blocks pushed into contextParts by getProjectContextString
(src/App.tsx lines 315-344).  All file reads are started concurrently under
Promise.all; the block of the active file needs no read and is pushed
synchronously during traversal, while every other block is pushed when its
read resolves, i.e. in read-completion order, given by the schedule `sched`.
A failed read (readF returning none) is logged and skipped. -/
def gpcsParts (tree : List TreeNode) (activeFile : Option String)
    (activeContent : String) (readF : String → Option String)
    (sched : List String) : List String :=
  ((filesOf tree).filterMap fun e =>
      if some e.2 = activeFile then some (fileBlock e.1 e.2 activeContent)
      else none)
    ++ sched.filterMap fun p =>
        match (filesOf tree).find? (fun e => e.2 == p) with
        | some e =>
            if some p = activeFile then none
            else (readF p).map (fileBlock e.1 e.2)
        | none => none

/-- Joining string parts with a separator. -/
def joinSep (sep : String) : List String → String
  | [] => ""
  | [s] => s
  | s :: rest => s ++ sep ++ joinSep sep rest

/-- Final assembly of getProjectContextString: the explicit no-files marker
for an empty block list, otherwise header, blocks joined by separators, and
the trailer. -/
def gpcsAssemble (parts : List String) : String :=
  if parts.isEmpty then
    "CONTEXT: This is a new project with no existing files.\n\n"
  else
    "CONTEXT: The current state of the project files is as follows:\n\n---\n"
      ++ joinSep "\n\n---\n" parts ++ "\n\n---\n\n"

/-- The full-context strategy (src/App.tsx lines 315-344) under a given
read-completion schedule. -/
def getProjectContextString (tree : List TreeNode) (activeFile : Option String)
    (activeContent : String) (readF : String → Option String)
    (sched : List String) : String :=
  gpcsAssemble (gpcsParts tree activeFile activeContent readF sched)

/-- The read-completion schedules that can actually occur: permutations of
the non-active file paths of the tree (every started read completes exactly
once). -/
def validSched (tree : List TreeNode) (activeFile : Option String)
    (sched : List String) : Prop :=
  sched.Perm ((filesOf tree).filterMap fun e =>
    if some e.2 = activeFile then none else some e.2)

/-- The tree lines pushed by buildTreeString inside getFileTreeContextString
(src/App.tsx lines 354-379): each level is sorted with sortTree, the last
sibling gets the corner connector, and non-empty folders recurse with an
extended prefix. -/
def buildTreeLines : List TreeNode → String → List String
  | [], _ => []
  | n :: rest, pre =>
      let isLast := rest.isEmpty
      let linePre := pre ++ (if isLast then "└── " else "├── ")
      let childLines :=
        match n with
        | TreeNode.folder _ _ cs =>
            if cs.isEmpty then []
            else
              buildTreeLines (sortNodes cs)
                (pre ++ (if isLast then "    " else "│   "))
        | TreeNode.file _ _ => []
      (linePre ++ n.name) :: (childLines ++ buildTreeLines rest pre)
termination_by nodes _ => sizeOf nodes
decreasing_by
  · simp_wf
    rename_i nm pth cs _h
    have hp := (List.perm_insertionSort sortTreeLe cs).sizeOf_eq_sizeOf
    simp only [sortNodes]
    omega
  · simp

/-- The summary (tree-listing) strategy (src/App.tsx lines 354-379): the
sorted tree lines, then the active file content section when present. -/
def getFileTreeContextString (tree : List TreeNode) (activeFile : Option String)
    (activeContent : String) : String :=
  let headerParts := ["Project file structure:"] ++ buildTreeLines (sortNodes tree) ""
  let parts :=
    match activeFile with
    | some af =>
        if activeContent ≠ "" then
          headerParts ++
            ["\n\nContent of active file (" ++ af ++ "):\n```"
              ++ langTag af ++ "\n" ++ activeContent ++ "\n```"]
        else
          headerParts ++
            ["\n\nNo content available for active file (" ++ af
              ++ "). It might be empty."]
    | none => headerParts
  "CONTEXT:\n" ++ joinSep "\n" parts ++ "\n\n"

/-- Claim C6 as stated: both strategies are deterministic; in particular any
two read-completion schedules give the full-context strategy identical
output. -/
def claimC6 : Prop :=
  (∀ tree activeFile activeContent readF s1 s2,
      validSched tree activeFile s1 → validSched tree activeFile s2 →
      getProjectContextString tree activeFile activeContent readF s1
        = getProjectContextString tree activeFile activeContent readF s2)
  ∧ (∀ tree activeFile activeContent,
      getFileTreeContextString tree activeFile activeContent
        = getFileTreeContextString tree activeFile activeContent)

/-- Concrete two-file tree used to exhibit schedule dependence. -/
def c6Tree : List TreeNode :=
  [TreeNode.file "a.ts" "a.ts", TreeNode.file "b.ts" "b.ts"]

/-- Concrete read results for the two-file tree. -/
def c6Read : String → Option String := fun p =>
  if p = "a.ts" then some "A" else if p = "b.ts" then some "B" else none

/-! ## AI response parsing (src/services/geminiService.ts lines 47-92 and
src/services/ollamaService.ts lines 10-33) -/

/-- JSON values as produced by JSON.parse.  Numbers are modelled as integers,
which covers every input the theorems evaluate; fractional numbers make the
model parser fail where JSON.parse would succeed, a restriction that only
narrows the set of accepted inputs and is never relied on. -/
inductive JValue where
  | null
  | bool (b : Bool)
  | num (n : Int)
  | str (s : String)
  | arr (xs : List JValue)
  | obj (fields : List (String × JValue))

/-- Strip leading JSON whitespace. -/
def skipWs : List Char → List Char
  | [] => []
  | c :: rest =>
      if c = ' ' ∨ c = '\n' ∨ c = '\t' ∨ c = '\r' then skipWs rest
      else c :: rest

/-- Strip whitespace from both ends (JavaScript trim). -/
def trimChars (l : List Char) : List Char :=
  (skipWs (skipWs l).reverse).reverse

/-- JSON string escapes. -/
def escChar (c : Char) : Option Char :=
  if c = '"' ∨ c = '/' then some c
  else if c = '\\' then some '\\'
  else if c = 'n' then some '\n'
  else if c = 't' then some '\t'
  else if c = 'r' then some '\r'
  else if c = 'b' then some (Char.ofNat 8)
  else if c = 'f' then some (Char.ofNat 12)
  else none

/-- Parse a JSON string body after the opening quote, accumulating into
`acc`; returns the string and the input after the closing quote. -/
def parseStringBody : List Char → List Char → Option (String × List Char)
  | [], _ => none
  | '"' :: rest, acc => some (String.mk acc.reverse, rest)
  | ['\\'], _ => none
  | '\\' :: c :: rest, acc =>
      match escChar c with
      | some e => parseStringBody rest (e :: acc)
      | none => none
  | c :: rest, acc => parseStringBody rest (c :: acc)

/-- Is this an ASCII digit. -/
def isDig (c : Char) : Bool := '0' ≤ c && c ≤ '9'

/-- Consume a run of digits into an accumulator. -/
def parseDigitsAux : List Char → Nat → Nat × List Char
  | [], acc => (acc, [])
  | c :: rest, acc =>
      if isDig c then parseDigitsAux rest (acc * 10 + (c.toNat - 48))
      else (acc, c :: rest)

/-- Payload of one step of the JSON parser: a value, an array tail, or an
object tail. -/
inductive JPayload where
  | v (x : JValue)
  | vs (xs : List JValue)
  | fs (fields : List (String × JValue))

/-- Recursive-descent JSON parser.  The first argument is fuel, the second a
mode: 0 parses one value, 1 parses array items up to the closing bracket, 2
parses object fields up to the closing brace. -/
def parseJ : Nat → Nat → List Char → Option (JPayload × List Char)
  | 0, _, _ => none
  | Nat.succ fuel, 0, cs =>
      match skipWs cs with
      | '"' :: rest =>
          (parseStringBody rest []).map (fun r => (JPayload.v (JValue.str r.1), r.2))
      | 't' :: 'r' :: 'u' :: 'e' :: rest => some (JPayload.v (JValue.bool true), rest)
      | 'f' :: 'a' :: 'l' :: 's' :: 'e' :: rest =>
          some (JPayload.v (JValue.bool false), rest)
      | 'n' :: 'u' :: 'l' :: 'l' :: rest => some (JPayload.v JValue.null, rest)
      | '[' :: rest =>
          (match skipWs rest with
           | ']' :: r2 => some (JPayload.v (JValue.arr []), r2)
           | other =>
               match parseJ fuel 1 other with
               | some (JPayload.vs xs, r2) => some (JPayload.v (JValue.arr xs), r2)
               | _ => none)
      | '\x7b' :: rest =>
          (match skipWs rest with
           | '\x7d' :: r2 => some (JPayload.v (JValue.obj []), r2)
           | other =>
               match parseJ fuel 2 other with
               | some (JPayload.fs fl, r2) => some (JPayload.v (JValue.obj fl), r2)
               | _ => none)
      | '-' :: c :: rest =>
          if isDig c then
            let r := parseDigitsAux (c :: rest) 0
            some (JPayload.v (JValue.num (-(r.1 : Int))), r.2)
          else none
      | c :: rest =>
          if isDig c then
            let r := parseDigitsAux (c :: rest) 0
            some (JPayload.v (JValue.num (r.1 : Int)), r.2)
          else none
      | [] => none
  | Nat.succ fuel, 1, cs =>
      (match parseJ fuel 0 cs with
       | some (JPayload.v x, r) =>
           (match skipWs r with
            | ',' :: r2 =>
                (match parseJ fuel 1 r2 with
                 | some (JPayload.vs xs, r3) => some (JPayload.vs (x :: xs), r3)
                 | _ => none)
            | ']' :: r2 => some (JPayload.vs [x], r2)
            | _ => none)
       | _ => none)
  | Nat.succ fuel, _, cs =>
      (match skipWs cs with
       | '"' :: rest =>
           (match parseStringBody rest [] with
            | some (k, r) =>
                (match skipWs r with
                 | ':' :: r2 =>
                     (match parseJ fuel 0 r2 with
                      | some (JPayload.v x, r3) =>
                          (match skipWs r3 with
                           | ',' :: r4 =>
                               (match parseJ fuel 2 r4 with
                                | some (JPayload.fs fl, r5) =>
                                    some (JPayload.fs ((k, x) :: fl), r5)
                                | _ => none)
                           | '\x7d' :: r4 => some (JPayload.fs [(k, x)], r4)
                           | _ => none)
                      | _ => none)
                 | _ => none)
            | none => none)
       | _ => none)

/-- JSON.parse on a character list: parse one value and require only
whitespace after it. -/
def jsonParseChars (l : List Char) : Option JValue :=
  match parseJ (2 * l.length + 4) 0 l with
  | some (JPayload.v x, rest) => if (skipWs rest).isEmpty then some x else none
  | _ => none

/-- Index of the first occurrence of `pat` as a contiguous substring. -/
def findSubIdx (pat : List Char) : List Char → Option Nat
  | [] => if pat.isEmpty then some 0 else none
  | c :: rest =>
      if pat.isPrefixOf (c :: rest) then some 0
      else (findSubIdx pat rest).map (fun i => i + 1)

/-- Index of the last occurrence of `pat` as a contiguous substring. -/
def findLastSubIdx (pat : List Char) : List Char → Option Nat
  | [] => if pat.isEmpty then some 0 else none
  | c :: rest =>
      match (findLastSubIdx pat rest).map (fun i => i + 1) with
      | some i => some i
      | none => if pat.isPrefixOf (c :: rest) then some 0 else none

/-- Index of the first occurrence of a character. -/
def firstIdx (c : Char) : List Char → Option Nat
  | [] => none
  | x :: rest =>
      if x = c then some 0 else (firstIdx c rest).map (fun i => i + 1)

/-- Index of the last occurrence of a character. -/
def lastIdx (c : Char) : List Char → Option Nat
  | [] => none
  | x :: rest =>
      match (lastIdx c rest).map (fun i => i + 1) with
      | some i => some i
      | none => if x = c then some 0 else none

/-- Extraction strategy 1 of parseAIResponse: the greedy regex over the
custom JSON_START and JSON_END tags; the capture group spans from the first
start tag to the last end tag after it, and is used only when non-empty
(JavaScript truthiness of the captured group). -/
def strat1 (l : List Char) : Option (List Char) :=
  match findSubIdx "<JSON_START>".toList l with
  | none => none
  | some i =>
      let after := l.drop (i + 12)
      match findLastSubIdx "<JSON_END>".toList after with
      | none => none
      | some j =>
          let grp := after.take j
          if grp.isEmpty then none else some (trimChars grp)

/-- Does a fence open at this position: three backticks, an optional json
tag, whitespace, then an opening brace.  Returns the input from the brace
onwards. -/
def fenceHeadMatch (l : List Char) : Option (List Char) :=
  if "```".toList.isPrefixOf l then
    let r := l.drop 3
    let r2 := if "json".toList.isPrefixOf r then r.drop 4 else r
    let r3 := skipWs r2
    match r3 with
    | '\x7b' :: _ => some r3
    | _ => none
  else none

/-- Last index (into the list) of a closing brace that is followed by
whitespace and a closing fence; the greedy capture picks this one. -/
def closeFenceAux : List Char → Option Nat
  | [] => none
  | c :: rest =>
      match (closeFenceAux rest).map (fun i => i + 1) with
      | some i => some i
      | none =>
          if c = '\x7d' ∧ "```".toList.isPrefixOf (skipWs rest) then some 0
          else none

/-- Extraction strategy 2 of parseAIResponse: the fenced-code-block regex,
scanning left to right for the first fence opening that has a matching
closing fence, capturing greedily from the opening brace to the last closing
brace before a closing fence. -/
def strat2 : List Char → Option (List Char)
  | [] => none
  | c :: rest =>
      match fenceHeadMatch (c :: rest) with
      | some content =>
          (match closeFenceAux (content.drop 1) with
           | some k => some (content.take (k + 2))
           | none => strat2 rest)
      | none => strat2 rest

/-- Extraction strategy 3 of parseAIResponse: the span from the first opening
brace to the last closing brace, when the latter comes after the former. -/
def strat3 (l : List Char) : Option (List Char) :=
  match firstIdx '\x7b' l, lastIdx '\x7d' l with
  | some i, some j => if i < j then some ((l.drop i).take (j - i + 1)) else none
  | _, _ => none

/-- The ordered extraction chain of parseAIResponse. -/
def extractJsonChars (l : List Char) : Option (List Char) :=
  match strat1 l with
  | some r => some r
  | none =>
      match strat2 l with
      | some r => some r
      | none => strat3 l

/-- The normalized result both response parsers return: the parsed files
entries (left as JSON values, since the gemini parser does not inspect them)
and the readme text. -/
structure ParsedResp where
  files : List JValue
  readmeContent : String

/-- Object field lookup with JavaScript semantics: the last duplicate key
wins. -/
def jlookup (fields : List (String × JValue)) (k : String) : Option JValue :=
  fields.reverse.lookup k

/-- The outer shape validation shared by both parsers: the parsed value must
be an object whose files field is an array and whose readmeContent field is a
string. -/
def validateOuter (v : JValue) : Option ParsedResp :=
  match v with
  | JValue.obj fields =>
      (match jlookup fields "files", jlookup fields "readmeContent" with
       | some (JValue.arr xs), some (JValue.str r) => some ⟨xs, r⟩
       | _, _ => none)
  | _ => none

/-- The per-file check of the ollama parser (ollamaService.ts line 20): the
entry is an object with string fileName and string code fields. -/
def isFileEntry (x : JValue) : Bool :=
  match x with
  | JValue.obj fl =>
      (match jlookup fl "fileName" with
       | some (JValue.str _) => true
       | _ => false)
        && (match jlookup fl "code" with
            | some (JValue.str _) => true
            | _ => false)
  | _ => false

/-- Modelled from the spec: the files value is a list of pairs of a path
string and a content string (fileName and code in this repository). -/
def specFilesShape (xs : List JValue) : Bool :=
  xs.all isFileEntry

/-- Model of parseAIResponse (geminiService.ts lines 47-92): reject empty
input, trim, run the extraction chain, JSON.parse the extracted span, and
validate only the OUTER shape; every failure path ends in a clean error
value.  The inner structure error thrown on a shape mismatch is caught by
the surrounding catch and resurfaces as the invalid-JSON message. -/
def parseAIResponse (responseText : String) : Except String ParsedResp :=
  if responseText = "" then
    Except.error "The AI returned an empty response. Please try again."
  else
    match extractJsonChars (trimChars responseText.toList) with
    | none =>
        Except.error "The AI returned a response that was not valid JSON. Please try again."
    | some js =>
        match jsonParseChars js with
        | none =>
            Except.error "The AI returned a response that was not valid JSON. Please try again."
        | some v =>
            match validateOuter v with
            | some r => Except.ok r
            | none =>
                Except.error "The AI returned a response that was not valid JSON. Please try again."

/-- Model of parseOllamaResponse (ollamaService.ts lines 10-33): reject empty
input, JSON.parse the raw text directly (no extraction chain), validate the
outer shape AND every files entry; every failure path ends in a clean error
value whose text wraps the inner message. -/
def parseOllamaResponse (responseText : String) : Except String ParsedResp :=
  if responseText = "" then
    Except.error "The AI returned an empty response. Please try again."
  else
    match jsonParseChars responseText.toList with
    | none => Except.error "The AI returned invalid JSON. Unknown parsing error."
    | some v =>
        match validateOuter v with
        | some r =>
            if specFilesShape r.files then Except.ok r
            else
              Except.error "The AI returned invalid JSON. Parsed JSON does not match the expected structure."
        | none =>
            Except.error "The AI returned invalid JSON. Parsed JSON does not match the expected structure."

/-- Claim C4 as stated, in its load-bearing part: whenever the response
parser with the extraction chain accepts, the files value has the validated
pair-of-strings shape. -/
def claimC4 : Prop :=
  ∀ s v, parseAIResponse s = Except.ok v → specFilesShape v.files = true

/-! ## Internal write suppression and the watcher
(src/main.js lines 89-100 and 218-235) -/

/-- Events on the main-process timeline, with millisecond timestamps: a
write-file handler starting (it sets isInternalChange to true synchronously
before touching the disk), a write completing (the finally block schedules a
timer that clears the flag 250 milliseconds later, whether the write
succeeded or failed), and a chokidar event reaching the watcher callback. -/
inductive WEvt where
  | wStart
  | wEnd
  | watchEvt
deriving DecidableEq

/-- The grace period of the suppression timer (src/main.js line 233). -/
def graceMs : Nat := 250

/-- Times at which some write sets the flag true. -/
def setTimes (tr : List (Nat × WEvt)) : List Nat :=
  tr.filterMap (fun e =>
    match e.2 with
    | WEvt.wStart => some e.1
    | _ => none)

/-- Times at which some scheduled timer sets the flag false: 250
milliseconds after each write completion. -/
def resetTimes (tr : List (Nat × WEvt)) : List Nat :=
  tr.filterMap (fun e =>
    match e.2 with
    | WEvt.wEnd => some (e.1 + graceMs)
    | _ => none)

/-- The isInternalChange flag at time T: the last assignment wins, so the
flag is true when some write start at or before T is strictly later than
every timer reset that has fired by T.  A reset coinciding with a start is
resolved in favor of the reset; the theorems below avoid that tie, whose
ordering the event loop does not determine. -/
def flagAt (tr : List (Nat × WEvt)) (T : Nat) : Bool :=
  (setTimes tr).any (fun s =>
    decide (s ≤ T)
      && (resetTimes tr).all (fun r => !(decide (r ≤ T)) || decide (r < s)))

/-- The watcher events forwarded as project-updated notifications: the
callback drops an event when the flag is set at its arrival time
(src/main.js lines 89-99). -/
def forwardedTimes (tr : List (Nat × WEvt)) : List Nat :=
  tr.filterMap (fun e =>
    match e.2 with
    | WEvt.watchEvt => if flagAt tr e.1 then none else some e.1
    | _ => none)

/-- Claim C1 as stated: the flag is set at each write start, stays set until
250 milliseconds after EACH write completes, and watcher events arriving
while it is set are never forwarded. -/
def claimC1 : Prop :=
  ∀ tr : List (Nat × WEvt),
    (∀ t, (t, WEvt.wStart) ∈ tr → flagAt tr t = true)
    ∧ (∀ te T, (te, WEvt.wEnd) ∈ tr → te ≤ T → T < te + graceMs →
        flagAt tr T = true)
    ∧ (∀ t, (t, WEvt.watchEvt) ∈ tr → flagAt tr t = true →
        t ∉ forwardedTimes tr)

/-! # Theorems -/

theorem hasSub_append_left (pat l s : List Char) (h : hasSub pat s = true) :
    hasSub pat (l ++ s) = true := by
  induction l with
  | nil => simpa using h
  | cons c cs ih =>
      simp only [List.cons_append, hasSub, Bool.or_eq_true]
      exact Or.inr ih

theorem dotSegScan_append (l : List Char) (b : Bool) (c : Char) (cs : List Char) :
    dotSegScan b (l ++ '/' :: '.' :: c :: cs) = true := by
  induction l generalizing b with
  | nil => simp [dotSegScan]
  | cons x xs ih =>
      simp only [List.cons_append, dotSegScan, Bool.or_eq_true]
      exact Or.inr (ih _)

theorem data_append_slash (pre name : String) :
    (pre ++ "/" ++ name).toList = pre.toList ++ '/' :: name.toList := by
  simp [String.toList, String.data_append]

theorem chokidarIgnoredL_of_dot (pre : List Char) (c : Char) (cs : List Char) :
    chokidarIgnoredL (pre ++ '/' :: '.' :: c :: cs) = true := by
  simp only [chokidarIgnoredL, Bool.or_eq_true]
  exact Or.inl (Or.inl (Or.inl (dotSegScan_append pre true c cs)))

theorem chokidarIgnoredL_of_sub (pre suf : List Char) (pat : List Char)
    (hpat : pat = "node_modules".toList ∨ pat = "dist".toList ∨ pat = "build".toList)
    (h : hasSub pat suf = true) :
    chokidarIgnoredL (pre ++ suf) = true := by
  have hs := hasSub_append_left pat pre suf h
  simp only [chokidarIgnoredL, Bool.or_eq_true]
  rcases hpat with h1 | h1 | h1 <;> subst h1
  · exact Or.inl (Or.inl (Or.inr hs))
  · exact Or.inl (Or.inr hs)
  · exact Or.inr hs

/-- Claim C5 is false on the code: the Project Store ignores the directory
name __pycache__ but the watcher regex does not match it, so the watcher
forwards events under __pycache__ even though the spec says they are
suppressed. -/
theorem claimC5_counterexample : ¬ claimC5 := by
  intro h
  have h2 := h "p" "__pycache__"
  revert h2
  decide

/-- C5 amended: the watcher ignore rule does not coincide with the Project
Store ignore set plus dotfiles.  What holds is: every name of the Project
Store ignore set except __pycache__ is suppressed by the watcher wherever it
appears under a parent; __pycache__ itself is not suppressed by the watcher
although the store ignores it; and the watcher additionally suppresses any
path merely containing dist, build or node_modules as a substring, such as a
file named distance.txt that the store does not ignore. -/
theorem claimC5_amended :
    (∀ pre name : String, name ∈ ignoredDirs → name ≠ "__pycache__" →
        chokidarIgnored (pre ++ "/" ++ name) = true)
    ∧ chokidarIgnored "p/__pycache__" = false
    ∧ specWatcherIgnores "__pycache__" = true
    ∧ chokidarIgnored "p/distance.txt" = true
    ∧ specWatcherIgnores "distance.txt" = false := by
  refine ⟨?_, by decide, by decide, by decide, by decide⟩
  intro pre name hmem hne
  have hx : chokidarIgnored (pre ++ "/" ++ name)
      = chokidarIgnoredL (pre.toList ++ '/' :: name.toList) := by
    rw [chokidarIgnored, data_append_slash]
  rw [hx]
  simp only [ignoredDirs, List.mem_cons, List.not_mem_nil, or_false] at hmem
  rcases hmem with h1 | h1 | h1 | h1 | h1 | h1 | h1 <;> subst h1
  · exact chokidarIgnoredL_of_sub _ _ _ (Or.inl rfl) (by decide)
  · exact chokidarIgnoredL_of_dot pre.toList 'g' "it".toList
  · exact chokidarIgnoredL_of_dot pre.toList 'v' "scode".toList
  · exact absurd rfl hne
  · exact chokidarIgnoredL_of_sub _ _ _ (Or.inr (Or.inl rfl)) (by decide)
  · exact chokidarIgnoredL_of_sub _ _ _ (Or.inr (Or.inr rfl)) (by decide)
  · exact chokidarIgnoredL_of_dot pre.toList 'c' "oder".toList

/-- Witness for the amended C5 theorem at the concrete name node_modules. -/
theorem claimC5_amended_witness :
    ("node_modules" ∈ ignoredDirs ∧ "node_modules" ≠ "__pycache__")
    ∧ chokidarIgnored ("p" ++ "/" ++ "node_modules") = true :=
  ⟨⟨by decide, by decide⟩,
    claimC5_amended.1 "p" "node_modules" (by decide) (by decide)⟩

/-- Claim C10: readProjectTree filters entries by name before checking their
kind, so an entry whose name is in the ignore set never appears in the
returned tree, whether it is a regular file or a directory, at any depth. -/
theorem readProjectTree_omits_ignored (es : List DirEnt) (pre name : String)
    (hmem : name ∈ ignoredDirs) :
    name ∉ treeNames (readProjectTree es pre) := by
  induction es, pre using readProjectTree.induct with
  | case1 pre => simp [readProjectTree, treeNames]
  | case2 n rest pre hig ih =>
      rw [readProjectTree, if_pos hig]
      exact ih
  | case3 n rest pre hig ih =>
      rw [readProjectTree, if_neg hig]
      simp only [treeNames, List.mem_cons, not_or]
      refine ⟨?_, ih⟩
      rintro rfl
      exact hig ((List.elem_iff).2 hmem)
  | case4 n cs rest pre hig ih =>
      rw [readProjectTree, if_pos hig]
      exact ih
  | case5 n cs rest pre hig ih1 ih2 =>
      rw [readProjectTree, if_neg hig]
      simp only [treeNames, List.mem_cons, List.mem_append, not_or]
      refine ⟨?_, ih1, ih2⟩
      rintro rfl
      exact hig ((List.elem_iff).2 hmem)

/-- Witness for C10: a project with a regular FILE named dist next to an
ordinary file; the dist file is omitted from the listing. -/
theorem readProjectTree_omits_ignored_witness :
    "dist" ∈ ignoredDirs
    ∧ "dist" ∉ treeNames
        (readProjectTree [DirEnt.fileEnt "dist", DirEnt.fileEnt "a.txt"] "") :=
  ⟨by decide,
    readProjectTree_omits_ignored [DirEnt.fileEnt "dist", DirEnt.fileEnt "a.txt"]
      "" "dist" (by decide)⟩

theorem readFileFs_setFile_self (fs : List (String × String)) (k v : String) :
    readFileFs (setFile fs k v) k = some v := by
  simp [readFileFs, setFile, List.find?]

theorem readFileFs_setFile_ne (fs : List (String × String)) (k v k2 : String)
    (h : k2 ≠ k) : readFileFs (setFile fs k v) k2 = readFileFs fs k2 := by
  have hk : (k == k2) = false := by
    simp only [beq_eq_false_iff_ne, ne_eq]
    exact fun hkk => h hkk.symm
  simp only [readFileFs, setFile, List.find?, hk]
  induction fs with
  | nil => rfl
  | cons a t ih =>
      by_cases ha : a.1 = k
      · have h1 : (a.1 != k) = false := by simp [ha]
        have h2 : (a.1 == k2) = false := by
          simp only [beq_eq_false_iff_ne, ne_eq, ha]
          exact fun hkk => h hkk.symm
        simp only [List.filter, h1, List.find?, h2]
        exact ih
      · have h1 : (a.1 != k) = true := by simp [ha]
        simp only [List.filter, h1, List.find?]
        cases hp : (a.1 == k2) with
        | true => rfl
        | false => exact ih

/-- Claim C9: the write-chat-history handler catches every filesystem error
internally and resolves successfully for every project state, transcript and
disk outcome, while the write-file handler rethrows its errors; a failed
transcript persist is therefore indistinguishable from a successful one at
the Reconciliation Driver boundary. -/
theorem writeChatHistory_never_fails (d : Disk) (h : List Content)
    (err : Option String) :
    (writeChatHistoryHandler d h err).2 = Except.ok ()
    ∧ (writeFileHandler d "a.txt" "x" (some "EACCES")).2 = Except.error "EACCES" := by
  cases err <;> exact ⟨rfl, rfl⟩

/-- Claim C3: when the AI exchange call itself fails, the in-memory
transcript length is unchanged (the optimistic user turn is rolled back) and
no write reached the main process during that send. -/
theorem sendFailure_rolls_back (st : AppState) (prompt : String)
    (img : Option String) (provider : AiProvider) (ctx raw e : String) :
    ((handleSendMessage st prompt img provider ctx raw
        (Except.error e)).state.chatHistory.length = st.chatHistory.length)
    ∧ (handleSendMessage st prompt img provider ctx raw
        (Except.error e)).writes = [] := by
  constructor
  · simp [handleSendMessage, List.dropLast_concat]
  · rfl

/-- Claim C2: after a successful exchange returning files src/a.ts with
content A and src/b.ts with content B plus readme R, the Reconciliation
Driver leaves A readable at src/a.ts, B at src/b.ts, R in the root
README.md, marks exactly the two files plus their ancestor directory src as
recently updated, and appends exactly one new user turn followed by one new
model turn to the in-memory transcript.  In the gemini branch the transcript
persisted on disk is assumed to agree with the in-memory transcript when the
send begins, because that branch rebuilds the session history from the disk
copy. -/
theorem sequentialMultiFileApply (st : AppState) (prompt : String)
    (img : Option String) (provider : AiProvider) (ctx raw : String)
    (out : SendOutcome)
    (hgem : provider = AiProvider.gemini →
      readChatHistoryFs st.disk = st.chatHistory)
    (hout : out = handleSendMessage st prompt img provider ctx raw
      (Except.ok c2Response)) :
    readFileFs out.state.disk.files "src/a.ts" = some "A"
    ∧ readFileFs out.state.disk.files "src/b.ts" = some "B"
    ∧ readFileFs out.state.disk.files "README.md" = some "R"
    ∧ out.state.recentlyUpdatedPaths = {"src/a.ts", "src/b.ts", "src"}
    ∧ ∃ u m : Content, out.state.chatHistory = st.chatHistory ++ [u, m]
        ∧ u.role = "user" ∧ m.role = "model" := by
  subst hout
  cases provider with
  | ollama =>
      simp [handleSendMessage, c2Response, List.foldl]
      refine ⟨?_, ?_, ?_, by decide, ⟨_, _, ⟨rfl, rfl⟩, rfl, rfl⟩⟩
      · rw [readFileFs_setFile_ne _ _ _ _ (by decide),
          readFileFs_setFile_ne _ _ _ _ (by decide), readFileFs_setFile_self]
      · rw [readFileFs_setFile_ne _ _ _ _ (by decide), readFileFs_setFile_self]
      · rw [readFileFs_setFile_self]
  | gemini =>
      simp [handleSendMessage, c2Response, List.foldl, hgem rfl]
      refine ⟨?_, ?_, ?_, by decide, ⟨_, _, ⟨rfl, rfl⟩, rfl, rfl⟩⟩
      · rw [readFileFs_setFile_ne _ _ _ _ (by decide),
          readFileFs_setFile_ne _ _ _ _ (by decide), readFileFs_setFile_self]
      · rw [readFileFs_setFile_ne _ _ _ _ (by decide), readFileFs_setFile_self]
      · rw [readFileFs_setFile_self]

/-- Witness for C2 at a fresh project on the gemini branch. -/
theorem sequentialMultiFileApply_witness :
    (AiProvider.gemini = AiProvider.gemini →
      readChatHistoryFs c2Start.disk = c2Start.chatHistory)
    ∧ (readFileFs (handleSendMessage c2Start "p" none AiProvider.gemini "ctx" "raw"
          (Except.ok c2Response)).state.disk.files "src/a.ts" = some "A"
      ∧ readFileFs (handleSendMessage c2Start "p" none AiProvider.gemini "ctx" "raw"
          (Except.ok c2Response)).state.disk.files "src/b.ts" = some "B"
      ∧ readFileFs (handleSendMessage c2Start "p" none AiProvider.gemini "ctx" "raw"
          (Except.ok c2Response)).state.disk.files "README.md" = some "R"
      ∧ (handleSendMessage c2Start "p" none AiProvider.gemini "ctx" "raw"
          (Except.ok c2Response)).state.recentlyUpdatedPaths
          = {"src/a.ts", "src/b.ts", "src"}
      ∧ ∃ u m : Content,
          (handleSendMessage c2Start "p" none AiProvider.gemini "ctx" "raw"
            (Except.ok c2Response)).state.chatHistory
            = c2Start.chatHistory ++ [u, m]
          ∧ u.role = "user" ∧ m.role = "model") :=
  ⟨fun _ => rfl,
    sequentialMultiFileApply c2Start "p" none AiProvider.gemini "ctx" "raw" _
      (fun _ => rfl) rfl⟩

theorem lookup_filter_ne_self (l : List (List String × String))
    (k other : List String) :
    (l.filter (fun e => e.1 != k && e.1 != other)).lookup k = none := by
  induction l with
  | nil => rfl
  | cons a t ih =>
      by_cases ha : a.1 = k
      · have : (a.1 != k && a.1 != other) = false := by simp [ha]
        simp only [List.filter, this]
        exact ih
      · cases hp : (a.1 != k && a.1 != other) with
        | false => simp only [List.filter, hp]; exact ih
        | true =>
            have hk : (k == a.1) = false := by
              simp only [beq_eq_false_iff_ne, ne_eq]
              exact fun hkk => ha hkk.symm
            simp only [List.filter, hp, List.lookup, hk]
            exact ih

/-- Claim C7 is false on the code: fs.rename silently replaces an existing
destination file, it does not fail.  With file a containing old and file b
containing new, renaming a onto b succeeds. -/
theorem claimC7_counterexample : ¬ claimC7 := by
  intro h
  have h2 := h ⟨[(["a"], "old"), (["b"], "new")], []⟩ ["a"] ["b"]
  revert h2
  decide

/-- C7 amended: rename fails with an IOError when the source does not exist,
and a directory cannot replace a non-empty directory; but an existing
destination FILE is silently replaced when the source is a file, so
destination existence alone is not an error. -/
theorem claimC7_amended (fs : FsT) (old new : List String) :
    (fs.existsNode old = false → renameNode fs old new = Except.error "ENOENT")
    ∧ (∀ c, fs.files.lookup old = some c → fs.isDir new = false → old ≠ new →
        ∃ fs2, renameNode fs old new = Except.ok fs2
          ∧ fs2.files.lookup new = some c
          ∧ fs2.files.lookup old = none)
    ∧ (fs.isFile old = false → fs.isDir old = true →
        old.isPrefixOf new = false → fs.isFile new = false →
        fs.isDir new = true → fs.dirNonempty new = true →
        renameNode fs old new = Except.error "ENOTEMPTY") := by
  refine ⟨?_, ?_, ?_⟩
  · intro hno
    have hor := hno
    simp only [FsT.existsNode, Bool.or_eq_false_iff] at hor
    obtain ⟨h1, h2⟩ := hor
    have h3 : fs.files.lookup old = none := by
      cases hl : fs.files.lookup old with
      | none => rfl
      | some c => rw [FsT.isFile, hl] at h1; simp at h1
    unfold renameNode
    rw [h3]
    simp [h2]
  · intro c hc hnd hne
    have hstep : renameNode fs old new
        = Except.ok { fs with
            files := (new, c)
              :: fs.files.filter (fun e => e.1 != old && e.1 != new) } := by
      unfold renameNode
      rw [hc]
      simp [hnd]
    rw [hstep]
    refine ⟨_, rfl, ?_, ?_⟩
    · simp [List.lookup]
    · have hk : (old == new) = false := by
        simp only [beq_eq_false_iff_ne, ne_eq]
        exact hne
      simp only [List.lookup, hk]
      exact lookup_filter_ne_self fs.files old new
  · intro hnf hd hpre hnfn hdn hne
    have h3 : fs.files.lookup old = none := by
      cases hl : fs.files.lookup old with
      | none => rfl
      | some c => rw [FsT.isFile, hl] at hnf; simp at hnf
    unfold renameNode
    rw [h3]
    simp [hd, hpre, hnfn, hdn, hne]

/-- Witness for the amended C7 theorem: renaming file a onto existing file b
succeeds and moves the content, and renaming a missing source fails. -/
theorem claimC7_amended_witness :
    (FsT.existsNode ⟨[(["a"], "old")], []⟩ ["missing"] = false
      ∧ renameNode ⟨[(["a"], "old")], []⟩ ["missing"] ["b"]
          = Except.error "ENOENT")
    ∧ ((List.lookup ["a"] [(["a"], "old"), (["b"], "new")] = some "old"
          ∧ FsT.isDir ⟨[(["a"], "old"), (["b"], "new")], []⟩ ["b"] = false)
      ∧ ∃ fs2, renameNode ⟨[(["a"], "old"), (["b"], "new")], []⟩ ["a"] ["b"]
            = Except.ok fs2
          ∧ fs2.files.lookup ["b"] = some "old"
          ∧ fs2.files.lookup ["a"] = none) :=
  ⟨⟨by decide,
      (claimC7_amended ⟨[(["a"], "old")], []⟩ ["missing"] ["b"]).1 (by decide)⟩,
    ⟨⟨by decide, by decide⟩,
      (claimC7_amended ⟨[(["a"], "old"), (["b"], "new")], []⟩ ["a"] ["b"]).2.1
        "old" (by decide) (by decide) (by decide)⟩⟩

theorem lexOrdN_eq_iff (x : List Nat) : ∀ y, lexOrdN x y = Ordering.eq ↔ x = y := by
  induction x with
  | nil => intro y; cases y <;> simp [lexOrdN]
  | cons a xs ih =>
      intro y
      cases y with
      | nil => simp [lexOrdN]
      | cons b ys =>
          simp only [lexOrdN]
          rcases Nat.lt_trichotomy a b with h | h | h
          · rw [if_pos h]
            constructor
            · intro hh; cases hh
            · intro hh
              injection hh with h1 _
              omega
          · subst h
            rw [if_neg (by omega), if_neg (by omega)]
            rw [ih ys]
            simp
          · rw [if_neg (by omega), if_pos h]
            constructor
            · intro hh; cases hh
            · intro hh
              injection hh with h1 _
              omega

theorem lexOrdN_swap (x : List Nat) : ∀ y, lexOrdN y x = (lexOrdN x y).swap := by
  induction x with
  | nil => intro y; cases y <;> simp [lexOrdN, Ordering.swap]
  | cons a xs ih =>
      intro y
      cases y with
      | nil => simp [lexOrdN, Ordering.swap]
      | cons b ys =>
          simp only [lexOrdN]
          rcases Nat.lt_trichotomy a b with h | h | h
          · rw [if_pos h, if_neg (by omega), if_pos h]
            rfl
          · subst h
            rw [if_neg (by omega), if_neg (by omega), if_neg (by omega),
              if_neg (by omega)]
            exact ih ys
          · rw [if_pos h, if_neg (by omega), if_pos h]
            rfl

theorem lexOrdN_lt_trans (x : List Nat) : ∀ y z, lexOrdN x y = Ordering.lt →
    lexOrdN y z = Ordering.lt → lexOrdN x z = Ordering.lt := by
  induction x with
  | nil =>
      intro y z h1 h2
      cases z with
      | cons _ _ => simp [lexOrdN]
      | nil =>
          cases y with
          | nil => simp [lexOrdN] at h1
          | cons _ _ => simp [lexOrdN] at h2
  | cons a xs ih =>
      intro y z h1 h2
      cases y with
      | nil => simp [lexOrdN] at h1
      | cons b ys =>
          cases z with
          | nil => simp [lexOrdN] at h2
          | cons c zs =>
              simp only [lexOrdN] at h1 h2 ⊢
              rcases Nat.lt_trichotomy a b with hab | hab | hab
              · rcases Nat.lt_trichotomy b c with hbc | hbc | hbc
                · rw [if_pos (by omega)]
                · subst hbc
                  rw [if_pos hab]
                · rw [if_neg (by omega), if_pos hbc] at h2
                  cases h2
              · subst hab
                rw [if_neg (by omega), if_neg (by omega)] at h1
                rcases Nat.lt_trichotomy a c with hac | hac | hac
                · rw [if_pos hac]
                · subst hac
                  rw [if_neg (by omega), if_neg (by omega)] at h2 ⊢
                  exact ih ys zs h1 h2
                · rw [if_neg (by omega), if_pos hac] at h2
                  cases h2
              · rw [if_neg (by omega), if_pos hab] at h1
                cases h1

theorem lexOrdN_le_trans (x y z : List Nat) (h1 : lexOrdN x y ≠ Ordering.gt)
    (h2 : lexOrdN y z ≠ Ordering.gt) : lexOrdN x z ≠ Ordering.gt := by
  cases hxy : lexOrdN x y with
  | gt => exact absurd hxy h1
  | eq =>
      rw [lexOrdN_eq_iff] at hxy
      subst hxy
      exact h2
  | lt =>
      cases hyz : lexOrdN y z with
      | gt => exact absurd hyz h2
      | eq =>
          rw [lexOrdN_eq_iff] at hyz
          subst hyz
          rw [hxy]
          intro hh; cases hh
      | lt =>
          rw [lexOrdN_lt_trans x y z hxy hyz]
          intro hh; cases hh

theorem localeCompare_swap (a b : String) :
    localeCompare b a = (localeCompare a b).swap := by
  unfold localeCompare
  rw [lexOrdN_swap (a.toList.map primaryKey) (b.toList.map primaryKey)]
  cases hp : lexOrdN (a.toList.map primaryKey) (b.toList.map primaryKey) with
  | lt => rfl
  | gt => rfl
  | eq =>
      simp only [Ordering.swap]
      exact lexOrdN_swap (a.toList.map caseKey) (b.toList.map caseKey)

theorem localeCompare_le_trans (a b c : String)
    (h1 : localeCompare a b ≠ Ordering.gt) (h2 : localeCompare b c ≠ Ordering.gt) :
    localeCompare a c ≠ Ordering.gt := by
  unfold localeCompare at h1 h2 ⊢
  cases hab : lexOrdN (a.toList.map primaryKey) (b.toList.map primaryKey) with
  | gt => rw [hab] at h1; exact absurd rfl h1
  | eq =>
      have hab2 := (lexOrdN_eq_iff _ _).1 hab
      rw [hab] at h1
      cases hbc : lexOrdN (b.toList.map primaryKey) (c.toList.map primaryKey) with
      | gt => rw [hbc] at h2; exact absurd rfl h2
      | eq =>
          have hbc2 := (lexOrdN_eq_iff _ _).1 hbc
          rw [hbc] at h2
          rw [hab2, hbc2, (lexOrdN_eq_iff _ _).2 rfl]
          exact lexOrdN_le_trans _ _ _ h1 h2
      | lt =>
          rw [hab2, hbc]
          intro hh; cases hh
  | lt =>
      cases hbc : lexOrdN (b.toList.map primaryKey) (c.toList.map primaryKey) with
      | gt => rw [hbc] at h2; exact absurd rfl h2
      | eq =>
          have hbc2 := (lexOrdN_eq_iff _ _).1 hbc
          rw [← hbc2, hab]
          intro hh; cases hh
      | lt =>
          rw [lexOrdN_lt_trans _ _ _ hab hbc]
          intro hh; cases hh

instance : IsTotal TreeNode sortTreeLe := by
  constructor
  intro a b
  unfold sortTreeLe
  by_cases h : sortTree a b = Ordering.gt
  · right
    cases a <;> cases b <;> simp only [sortTree] at h ⊢ <;>
      first
        | (rw [localeCompare_swap, h]; decide)
        | decide
        | exact absurd h (by decide)
  · left; exact h

instance : IsTrans TreeNode sortTreeLe := by
  constructor
  intro a b c hab hbc
  unfold sortTreeLe at hab hbc ⊢
  cases a <;> cases b <;> cases c <;> simp only [sortTree] at hab hbc ⊢ <;>
    first
      | (exact absurd rfl hab)
      | (exact absurd rfl hbc)
      | (exact localeCompare_le_trans _ _ _ hab hbc)
      | decide

/-- Claim C8 is false on the code: the comparator delegates to localeCompare,
which orders the file named a before the file named B, while a case-sensitive
ordinal comparison orders B (code point 66) before a (code point 97). -/
theorem claimC8_counterexample : ¬ claimC8 := by
  intro h
  have h2 := h (TreeNode.file "a" "a") (TreeNode.file "B" "B") rfl
  revert h2
  decide

/-- C8 amended: the render-time sort is a stable permutation of its input,
sorted so that folders precede files and nodes of the same kind are in
locale-aware order (localeCompare, lowercase a before uppercase B), which is
not the case-sensitive ordinal order. -/
theorem claimC8_amended (l : List TreeNode) :
    (sortNodes l).Perm l
    ∧ List.Sorted sortTreeLe (sortNodes l)
    ∧ (∀ a b : TreeNode, sortTreeLe a b ↔
        (kindRank a < kindRank b
          ∨ (kindRank a = kindRank b
              ∧ localeCompare a.name b.name ≠ Ordering.gt)))
    ∧ sortTree (TreeNode.file "a" "a") (TreeNode.file "B" "B") = Ordering.lt
    ∧ ordCompare "a" "B" = Ordering.gt := by
  refine ⟨List.perm_insertionSort sortTreeLe l,
    List.sorted_insertionSort sortTreeLe l, ?_, by decide, by decide⟩
  intro a b
  cases a <;> cases b <;>
    simp [sortTreeLe, sortTree, kindRank]

/-- Claim C6 is false on the code: the full-context strategy pushes each file
block when its read resolves inside Promise.all, so two runs over the same
tree and contents whose reads complete in different orders produce different
context strings (the blocks for a.ts and b.ts swap). -/
theorem claimC6_counterexample : ¬ claimC6 := by
  intro h
  have hfl : filesOf c6Tree = [("a.ts", "a.ts"), ("b.ts", "b.ts")] := by
    simp [c6Tree, filesOf]
  have hv1 : validSched c6Tree none ["a.ts", "b.ts"] := by
    unfold validSched
    rw [hfl]
    decide
  have hv2 : validSched c6Tree none ["b.ts", "a.ts"] := by
    unfold validSched
    rw [hfl]
    decide
  have h2 := h.1 c6Tree none "" c6Read ["a.ts", "b.ts"] ["b.ts", "a.ts"] hv1 hv2
  have hne : getProjectContextString c6Tree none "" c6Read ["a.ts", "b.ts"]
      ≠ getProjectContextString c6Tree none "" c6Read ["b.ts", "a.ts"] := by
    unfold getProjectContextString gpcsParts
    rw [hfl]
    decide
  exact hne h2

/-- C6 amended: the summary strategy is a pure function of its inputs, and
the full-context strategy always emits the same collection of file blocks,
but only up to order: permuting the read-completion schedule permutes the
blocks, so the assembled string can differ between runs. -/
theorem claimC6_amended (tree : List TreeNode) (af : Option String)
    (ac : String) (readF : String → Option String) (s1 s2 : List String)
    (hperm : s1.Perm s2) :
    (gpcsParts tree af ac readF s1).Perm (gpcsParts tree af ac readF s2)
    ∧ getProjectContextString tree af ac readF s1
        = gpcsAssemble (gpcsParts tree af ac readF s1) := by
  constructor
  · exact List.Perm.append_left _ (hperm.filterMap _)
  · rfl

/-- Witness for the amended C6 theorem at the two-file tree. -/
theorem claimC6_amended_witness :
    (["a.ts", "b.ts"] : List String).Perm ["b.ts", "a.ts"]
    ∧ (gpcsParts c6Tree none "" c6Read ["a.ts", "b.ts"]).Perm
        (gpcsParts c6Tree none "" c6Read ["b.ts", "a.ts"]) :=
  ⟨by decide,
    (claimC6_amended c6Tree none "" c6Read ["a.ts", "b.ts"] ["b.ts", "a.ts"]
      (by decide)).1⟩

/-- Claim C4 is false on the code: the gemini-side parser validates only that
files is an array and readmeContent a string, not that the array entries are
pairs of strings, so it accepts a response whose files list contains the
number 42 and returns it instead of failing with a malformed-response
error. -/
theorem claimC4_counterexample : ¬ claimC4 := by
  intro h
  have hp : parseAIResponse "\x7b\"files\":[42],\"readmeContent\":\"r\"\x7d"
      = Except.ok ⟨[JValue.num 42], "r"⟩ := by rfl
  have h2 := h _ _ hp
  simp [specFilesShape, isFileEntry] at h2

/-- C4 amended: the extraction chain and the clean failure modes hold, but
only the ollama parser validates the per-entry shape; the gemini parser
checks just that files is an array and readmeContent a string.  Whenever the
gemini parser accepts, its result really is the files array and readme
string of the single parsed JSON object; inputs with no brace span and empty
inputs fail with the clean error values, never an unhandled exception. -/
theorem claimC4_amended :
    (∀ s v, parseOllamaResponse s = Except.ok v → specFilesShape v.files = true)
    ∧ (∀ s v, parseAIResponse s = Except.ok v →
        ∃ fields, jlookup fields "files" = some (JValue.arr v.files)
          ∧ jlookup fields "readmeContent" = some (JValue.str v.readmeContent))
    ∧ parseAIResponse "hello there"
        = Except.error "The AI returned a response that was not valid JSON. Please try again."
    ∧ parseAIResponse ""
        = Except.error "The AI returned an empty response. Please try again." := by
  refine ⟨?_, ?_, by rfl, by rfl⟩
  · intro s v h
    unfold parseOllamaResponse at h
    by_cases hs : s = ""
    · rw [if_pos hs] at h
      simp at h
    · rw [if_neg hs] at h
      split at h
      · simp at h
      · split at h
        · split at h
          · rename_i r hv hsf
            injection h with h2
            subst h2
            exact hsf
          · simp at h
        · simp at h
  · intro s v h
    unfold parseAIResponse at h
    by_cases hs : s = ""
    · rw [if_pos hs] at h
      simp at h
    · rw [if_neg hs] at h
      split at h
      · simp at h
      · split at h
        · simp at h
        · split at h
          · rename_i js jv hjson r hv
            injection h with h2
            subst h2
            unfold validateOuter at hv
            split at hv
            · rename_i fields
              split at hv
              · rename_i xs rr hfs hrm
                injection hv with hv2
                subst hv2
                exact ⟨fields, hfs, hrm⟩
              · simp at hv
            · simp at hv
          · simp at h

/-- Witness for the amended C4 theorem: a well-formed ollama response passes
with the entry shape validated, and a well-formed prose-wrapped gemini
response extracts to its object fields. -/
theorem claimC4_amended_witness :
    (parseOllamaResponse
        "\x7b\"files\":[\x7b\"fileName\":\"a.ts\",\"code\":\"x\"\x7d],\"readmeContent\":\"r\"\x7d"
      = Except.ok
          ⟨[JValue.obj [("fileName", JValue.str "a.ts"), ("code", JValue.str "x")]], "r"⟩
      ∧ specFilesShape
          [JValue.obj [("fileName", JValue.str "a.ts"), ("code", JValue.str "x")]]
          = true)
    ∧ (parseAIResponse "\x7b\"files\":[],\"readmeContent\":\"ok\"\x7d"
        = Except.ok ⟨[], "ok"⟩
      ∧ ∃ fields, jlookup fields "files" = some (JValue.arr [])
          ∧ jlookup fields "readmeContent" = some (JValue.str "ok")) :=
  ⟨⟨by rfl,
      claimC4_amended.1
        "\x7b\"files\":[\x7b\"fileName\":\"a.ts\",\"code\":\"x\"\x7d],\"readmeContent\":\"r\"\x7d"
        ⟨[JValue.obj [("fileName", JValue.str "a.ts"), ("code", JValue.str "x")]], "r"⟩
        (by rfl)⟩,
    ⟨by rfl, claimC4_amended.2.1 "\x7b\"files\":[],\"readmeContent\":\"ok\"\x7d"
      ⟨[], "ok"⟩ (by rfl)⟩⟩

/-- Claim C1 is false on the code: with two writes spanning 0 to 10 and 20 to
30 milliseconds, the timer of the first write fires at 260 and clears the
flag, although only 230 milliseconds have passed since the second write
completed; at time 270 the flag is already false inside the second write's
grace period. -/
theorem claimC1_counterexample : ¬ claimC1 := by
  intro h
  have h2 := (h [(0, WEvt.wStart), (10, WEvt.wEnd),
      (20, WEvt.wStart), (30, WEvt.wEnd)]).2.1 30 270
    (by decide) (by decide) (by decide)
  revert h2
  decide

/-- C1 amended: the flag is set true at each write start (absent a timer
firing in the same instant); the flag can only be false, once any write has
started, after the full 250 millisecond grace period of SOME write has
elapsed — so a single write in isolation keeps the flag set until 250
milliseconds after it completes, while with overlapping writes an earlier
timer may clear the flag sooner than 250 milliseconds after a later write
completes; and every watcher event that arrives while the flag is set is
dropped. -/
theorem claimC1_amended (tr : List (Nat × WEvt)) :
    (∀ t, (t, WEvt.wStart) ∈ tr → (∀ r ∈ resetTimes tr, r ≠ t) →
        flagAt tr t = true)
    ∧ (∀ T, flagAt tr T = false → (∃ s ∈ setTimes tr, s ≤ T) →
        ∃ te, (te, WEvt.wEnd) ∈ tr ∧ te + graceMs ≤ T)
    ∧ (∀ ts te T, setTimes tr = [ts] → resetTimes tr = [te + graceMs] →
        ts ≤ T → T < te + graceMs → flagAt tr T = true)
    ∧ (∀ t, (t, WEvt.watchEvt) ∈ tr → flagAt tr t = true →
        t ∉ forwardedTimes tr) := by
  refine ⟨?_, ?_, ?_, ?_⟩
  · intro t hmem hnr
    have hset : t ∈ setTimes tr :=
      List.mem_filterMap.2 ⟨(t, WEvt.wStart), hmem, rfl⟩
    simp only [flagAt, List.any_eq_true, Bool.and_eq_true, List.all_eq_true,
      Bool.or_eq_true, Bool.not_eq_true', decide_eq_true_eq,
      decide_eq_false_iff_not]
    refine ⟨t, hset, Nat.le_refl t, ?_⟩
    intro r hr
    rcases Nat.lt_or_ge r t with hlt | hge
    · exact Or.inr hlt
    · left
      intro hle
      exact hnr r hr (Nat.le_antisymm hle hge)
  · intro T hfalse hex
    obtain ⟨s, hsmem, hsle⟩ := hex
    rw [← Bool.not_eq_true] at hfalse
    simp only [flagAt, List.any_eq_true, Bool.and_eq_true, List.all_eq_true,
      Bool.or_eq_true, Bool.not_eq_true', decide_eq_true_eq,
      decide_eq_false_iff_not] at hfalse
    push_neg at hfalse
    obtain ⟨r, hrmem, hrle, hrs⟩ := hfalse s hsmem hsle
    obtain ⟨e, hemem, hee⟩ := List.mem_filterMap.1 hrmem
    obtain ⟨t2, ev⟩ := e
    cases ev with
    | wEnd =>
        refine ⟨t2, hemem, ?_⟩
        have : t2 + graceMs = r := by
          simpa using hee
        omega
    | wStart => simp at hee
    | watchEvt => simp at hee
  · intro ts te T hst hrt hle hlt
    simp only [flagAt, hst, hrt, List.any_cons, List.any_nil, List.all_cons,
      List.all_nil, Bool.or_false, Bool.and_true, Bool.and_eq_true,
      Bool.or_eq_true, Bool.not_eq_true', decide_eq_true_eq,
      decide_eq_false_iff_not]
    exact ⟨hle, Or.inl (by omega)⟩
  · intro t hmem hflag hforward
    obtain ⟨e, hemem, hee⟩ := List.mem_filterMap.1 hforward
    obtain ⟨t2, ev⟩ := e
    cases ev with
    | watchEvt =>
        by_cases hf : flagAt tr t2
        · rw [if_pos hf] at hee
          simp at hee
        · rw [if_neg hf] at hee
          have ht : t2 = t := by simpa using hee
          subst ht
          exact hf hflag
    | wStart => simp at hee
    | wEnd => simp at hee

/-- Witness for the amended C1 theorem on a single-write trace: the flag is
set at the write start, stays set 240 milliseconds after the write completes,
and the watcher event arriving at that moment is dropped. -/
theorem claimC1_amended_witness :
    ((0, WEvt.wStart) ∈ ([(0, WEvt.wStart), (10, WEvt.wEnd),
          (250, WEvt.watchEvt)] : List (Nat × WEvt))
      ∧ flagAt [(0, WEvt.wStart), (10, WEvt.wEnd), (250, WEvt.watchEvt)] 0 = true)
    ∧ flagAt [(0, WEvt.wStart), (10, WEvt.wEnd), (250, WEvt.watchEvt)] 250 = true
    ∧ (250 : Nat) ∉ forwardedTimes
        [(0, WEvt.wStart), (10, WEvt.wEnd), (250, WEvt.watchEvt)] :=
  ⟨⟨by decide,
      (claimC1_amended _).1 0 (by decide) (by decide)⟩,
    (claimC1_amended _).2.2.1 0 10 250 (by decide) (by decide) (by decide)
      (by decide),
    (claimC1_amended _).2.2.2 250 (by decide)
      ((claimC1_amended _).2.2.1 0 10 250 (by decide) (by decide) (by decide)
        (by decide))⟩
